import Mathlib

/-
Verification of the hover/press animation state machine and the color mix
utility of `cosmic-theme` (`src/cosmic-theme/src/model/animation.rs`).

Modelling choices:
- The Rust code computes with `f32`/`f64`.  We model a floating-point value
  by the type `FP`: an exact rational for the finite case, plus the IEEE
  special values `+inf`, `-inf` and `NaN`.  Finite arithmetic is modelled
  exactly (rounding is abstracted away; none of the verified properties
  depends on rounding), while the IEEE special-value rules are modelled
  faithfully: `0/0 = NaN`, `x/0 = +inf` for `x > 0`, `fin - inf = -inf`,
  any operation on `NaN` yields `NaN`, Rust's `f32::clamp` maps `NaN` to
  `NaN`, `+inf` to the upper bound and `-inf` to the lower bound, and the
  comparisons `== 0.0`, `!= 1.0`, `<=` are false/true on `NaN` exactly as
  IEEE prescribes.
- `std::time::Instant` is modelled as a natural number of milliseconds
  (`(now - started_at).as_millis()` becomes truncated subtraction on `Nat`,
  matching the saturating behaviour of `Instant` subtraction).  The
  `Instant::now()` calls inside the event handlers become an explicit
  `now` parameter: the host-supplied monotonic timestamp of the event.
- `iced_core::Color` (an external dependency) is four `f32` channels,
  documented to lie in `[0, 1]`; `mix` involves no division, so its
  channels and the ratio are modelled as exact rationals.
-/

/-- Model of an IEEE floating-point scalar: an exact rational (finite case)
or one of the special values `+inf`, `-inf`, `NaN`. -/
inductive FP where
  | fin (q : ℚ)
  | posInf
  | negInf
  | nan
deriving DecidableEq

namespace FP

/-- IEEE negation. -/
def neg : FP → FP
  | fin q => fin (-q)
  | posInf => negInf
  | negInf => posInf
  | nan => nan

/-- IEEE addition (finite arithmetic exact; `NaN` propagates;
`+inf + -inf = NaN`). -/
def add : FP → FP → FP
  | nan, _ => nan
  | _, nan => nan
  | fin a, fin b => fin (a + b)
  | fin _, posInf => posInf
  | fin _, negInf => negInf
  | posInf, fin _ => posInf
  | negInf, fin _ => negInf
  | posInf, posInf => posInf
  | negInf, negInf => negInf
  | posInf, negInf => nan
  | negInf, posInf => nan

/-- IEEE subtraction, as addition of the negation. -/
def sub (a b : FP) : FP := a.add b.neg

/-- IEEE multiplication (`0 * inf = NaN`; signs of infinities multiply). -/
def mul : FP → FP → FP
  | nan, _ => nan
  | _, nan => nan
  | fin a, fin b => fin (a * b)
  | fin a, posInf => if 0 < a then posInf else if a < 0 then negInf else nan
  | fin a, negInf => if 0 < a then negInf else if a < 0 then posInf else nan
  | posInf, fin b => if 0 < b then posInf else if b < 0 then negInf else nan
  | negInf, fin b => if 0 < b then negInf else if b < 0 then posInf else nan
  | posInf, posInf => posInf
  | posInf, negInf => negInf
  | negInf, posInf => negInf
  | negInf, negInf => posInf

/-- Division of two nonnegative finite values given as naturals, as in
`(elapsed_ms as f64) / (duration_ms as f64)`:
`0/0 = NaN`, `x/0 = +inf` for `x > 0`, otherwise the exact quotient. -/
def natDiv (a b : ℕ) : FP :=
  if b = 0 then (if a = 0 then nan else posInf) else fin ((a : ℚ) / (b : ℚ))

/-- Rust's `f32::clamp(0.0, 1.0)` on a finite rational value
(`if self < min { min } else if self > max { max } else { self }`). -/
def clampQ (q : ℚ) : ℚ := if q < 0 then 0 else if 1 < q then 1 else q

/-- Rust's `f32::clamp(0.0, 1.0)`: `NaN` stays `NaN`, `+inf` clamps to the
upper bound, `-inf` to the lower bound, finite values clamp exactly. -/
def clamp01 : FP → FP
  | fin q => fin (clampQ q)
  | posInf => fin 1
  | negInf => fin 0
  | nan => nan

/-- The IEEE comparison `self != 1.0` (true on `NaN` and infinities). -/
def neOne : FP → Bool
  | fin q => decide (q ≠ 1)
  | _ => true

/-- The IEEE comparison `<=` (false whenever either side is `NaN`). -/
def fle : FP → FP → Bool
  | nan, _ => false
  | _, nan => false
  | negInf, _ => true
  | _, negInf => false
  | _, posInf => true
  | posInf, _ => false
  | fin a, fin b => decide (a ≤ b)

end FP

/-- Direction of the animation (`AnimationDirection` in the source). -/
inductive AnimationDirection where
  | forward
  | backward
deriving DecidableEq

/-- The type of effect for the animation (`AnimationEffect` in the source). -/
inductive AnimationEffect where
  | linear
  | easeOut
  | none
deriving DecidableEq

/-- Hover animation of the widget (`HoverPressedAnimation` in the source).
`started_at` is the optional start instant in milliseconds. -/
structure HoverPressedAnimation where
  direction : AnimationDirection
  started_at : Option ℕ
  animation_progress : FP
  initial_progress : FP
  effect : AnimationEffect
deriving DecidableEq

/-- Robert Penner's cubic ease-out, `(t - 1)^3 + 1`, translated over `FP`
exactly as `ease_out_cubic` in the source. -/
def ease_out_cubic (t : FP) : FP :=
  ((t.sub (FP.fin 1)).mul (t.sub (FP.fin 1)) |>.mul (t.sub (FP.fin 1))).add (FP.fin 1)

/-- The `Default` instance of the source: direction forward, not running,
progress and baseline `0.0`, linear effect. -/
def HoverPressedAnimation.default : HoverPressedAnimation :=
  ⟨AnimationDirection.forward, none, FP.fin 0, FP.fin 0, AnimationEffect.linear⟩

namespace HoverPressedAnimation

/-- `HoverPressedAnimation::new`: the default state with the given effect. -/
def new (e : AnimationEffect) : HoverPressedAnimation :=
  { HoverPressedAnimation.default with effect := e }

/-- `HoverPressedAnimation::is_running`. -/
def is_running (s : HoverPressedAnimation) : Bool := s.started_at.isSome

/-- `HoverPressedAnimation::reset`. -/
def reset (s : HoverPressedAnimation) : HoverPressedAnimation :=
  { s with direction := AnimationDirection.forward,
           started_at := none,
           animation_progress := FP.fin 0,
           initial_progress := FP.fin 0 }

/-- `HoverPressedAnimation::on_redraw_request_update`, translated
branch-for-branch from the source.  `now` is the tick's monotonic
timestamp in milliseconds; the returned boolean is the need to redraw. -/
def on_redraw_request_update (s : HoverPressedAnimation)
    (forward_duration_ms backward_duration_ms now : ℕ) :
    HoverPressedAnimation × Bool :=
  match s.started_at with
  | some started_at =>
    let s1 := if forward_duration_ms = 0
      then { s with animation_progress := FP.fin 1 } else s
    if s1.animation_progress = FP.fin 0 ∧
        s1.direction = AnimationDirection.backward then
      ({ s1 with started_at := none }, true)
    else
      let elapsed : ℕ := now - started_at
      match s1.effect, s1.direction with
      | AnimationEffect.linear, AnimationDirection.forward =>
        ({ s1 with animation_progress :=
            (s1.initial_progress.add (FP.natDiv elapsed forward_duration_ms)).clamp01 }, true)
      | AnimationEffect.linear, AnimationDirection.backward =>
        ({ s1 with animation_progress :=
            (s1.initial_progress.sub (FP.natDiv elapsed backward_duration_ms)).clamp01 }, true)
      | AnimationEffect.easeOut, AnimationDirection.forward =>
        ({ s1 with animation_progress :=
            (s1.initial_progress.add (ease_out_cubic (FP.natDiv elapsed forward_duration_ms))).clamp01 }, true)
      | AnimationEffect.easeOut, AnimationDirection.backward =>
        ({ s1 with animation_progress :=
            (s1.initial_progress.sub (ease_out_cubic (FP.natDiv elapsed backward_duration_ms))).clamp01 }, true)
      | AnimationEffect.none, _ => (s1, true)
  | none => (s, false)

/-- `HoverPressedAnimation::on_cursor_moved_update`.  `now` is the
monotonic timestamp of the pointer event (the source's `Instant::now()`). -/
def on_cursor_moved_update (s : HoverPressedAnimation)
    (is_mouse_over : Bool) (now : ℕ) : HoverPressedAnimation × Bool :=
  if is_mouse_over then
    let s1 :=
      if s.started_at.isSome then
        if s.direction = AnimationDirection.backward then
          { s with direction := AnimationDirection.forward,
                   initial_progress := s.animation_progress,
                   started_at := some now }
        else s
      else
        { s with direction := AnimationDirection.forward,
                 started_at := some now,
                 animation_progress := FP.fin 0,
                 initial_progress := FP.fin 0 }
    (s1, s1.animation_progress.neOne)
  else if s.started_at.isSome then
    match s.direction with
    | AnimationDirection.forward =>
      ({ s with direction := AnimationDirection.backward,
                initial_progress := s.animation_progress,
                started_at := some now }, true)
    | AnimationDirection.backward => (s, true)
  else (s, false)

/-- `HoverPressedAnimation::on_press`. -/
def on_press (s : HoverPressedAnimation) (now : ℕ) : HoverPressedAnimation :=
  { s with started_at := some now,
           direction := AnimationDirection.forward,
           animation_progress := FP.fin 0,
           initial_progress := FP.fin 0 }

/-- `HoverPressedAnimation::on_released`. -/
def on_released (s : HoverPressedAnimation) (now : ℕ) : HoverPressedAnimation :=
  { s with started_at := some now,
           direction := AnimationDirection.backward,
           initial_progress := s.animation_progress }

/-- `HoverPressedAnimation::on_activate`. -/
def on_activate (s : HoverPressedAnimation) (now : ℕ) : HoverPressedAnimation :=
  { s with started_at := some now,
           direction := AnimationDirection.backward,
           initial_progress := FP.fin 1,
           animation_progress := FP.fin 1 }

end HoverPressedAnimation

/-- One host-driven public operation, with its host-supplied arguments
(timestamps in milliseconds, durations in milliseconds). -/
inductive Op where
  | opReset
  | opPress (now : ℕ)
  | opReleased (now : ℕ)
  | opActivate (now : ℕ)
  | opCursorMoved (is_mouse_over : Bool) (now : ℕ)
  | opRedraw (forward_duration_ms backward_duration_ms now : ℕ)
deriving DecidableEq

/-- The state transition of one public operation (return values dropped). -/
def step (s : HoverPressedAnimation) : Op → HoverPressedAnimation
  | Op.opReset => s.reset
  | Op.opPress n => s.on_press n
  | Op.opReleased n => s.on_released n
  | Op.opActivate n => s.on_activate n
  | Op.opCursorMoved b n => (s.on_cursor_moved_update b n).1
  | Op.opRedraw fd bd n => (s.on_redraw_request_update fd bd n).1

/-- Run a sequence of public operations from a state. -/
def run (s : HoverPressedAnimation) (ops : List Op) : HoverPressedAnimation :=
  ops.foldl step s

/-- Run a sequence of redraw ticks, each given as
(forward duration, backward duration, timestamp). -/
def runTicks (s : HoverPressedAnimation) (ticks : List (ℕ × ℕ × ℕ)) :
    HoverPressedAnimation :=
  ticks.foldl (fun st x => (st.on_redraw_request_update x.1 x.2.1 x.2.2).1) s

/-- An operation whose duration arguments are nonzero (non-redraw
operations carry no durations). -/
def goodOp : Op → Bool
  | Op.opRedraw fd bd _ => decide (fd ≠ 0) && decide (bd ≠ 0)
  | _ => true

/-- A color with four channels (`iced_core::Color`), channels modelled as
exact rationals. -/
structure Color where
  r : ℚ
  g : ℚ
  b : ℚ
  a : ℚ
deriving DecidableEq

/-- A color whose four channels all lie in `[0, 1]`, as documented for
`iced_core::Color`. -/
def ValidColor (c : Color) : Prop :=
  0 ≤ c.r ∧ c.r ≤ 1 ∧ 0 ≤ c.g ∧ c.g ≤ 1 ∧ 0 ≤ c.b ∧ c.b ≤ 1 ∧ 0 ≤ c.a ∧ c.a ≤ 1

instance (c : Color) : Decidable (ValidColor c) := by
  unfold ValidColor; infer_instance

/-- The `mix` function of the source: per-channel linear interpolation with
the given ratio, each channel clamped to `[0, 1]`. -/
def mix (color other : Color) (rt : ℚ) : Color :=
  let self_rt := 1 - rt
  { r := FP.clampQ (color.r * self_rt + other.r * rt)
    g := FP.clampQ (color.g * self_rt + other.g * rt)
    b := FP.clampQ (color.b * self_rt + other.b * rt)
    a := FP.clampQ (color.a * self_rt + other.a * rt) }

namespace FP

theorem clampQ_nonneg (q : ℚ) : 0 ≤ clampQ q := by
  unfold clampQ; split_ifs <;> linarith

theorem clampQ_le_one (q : ℚ) : clampQ q ≤ 1 := by
  unfold clampQ; split_ifs <;> linarith

theorem clampQ_of_mem (q : ℚ) (h0 : 0 ≤ q) (h1 : q ≤ 1) : clampQ q = q := by
  unfold clampQ; split_ifs <;> linarith

theorem clampQ_of_nonpos (q : ℚ) (h : q ≤ 0) : clampQ q = 0 := by
  unfold clampQ; split_ifs <;> linarith

theorem clampQ_of_one_le (q : ℚ) (h : 1 ≤ q) : clampQ q = 1 := by
  unfold clampQ; split_ifs <;> linarith

@[simp] theorem add_fin (a b : ℚ) : (fin a).add (fin b) = fin (a + b) := rfl

@[simp] theorem sub_fin (a b : ℚ) : (fin a).sub (fin b) = fin (a - b) := by
  simp [sub, add, neg, sub_eq_add_neg]

@[simp] theorem mul_fin (a b : ℚ) : (fin a).mul (fin b) = fin (a * b) := rfl

@[simp] theorem clamp01_fin (q : ℚ) : (fin q).clamp01 = fin (clampQ q) := rfl

theorem natDiv_of_den_ne_zero (a b : ℕ) (hb : b ≠ 0) :
    natDiv a b = fin ((a : ℚ) / (b : ℚ)) := by
  simp [natDiv, hb]

theorem natDiv_nonneg (a b : ℕ) (hb : b ≠ 0) :
    ∃ q, natDiv a b = fin q ∧ 0 ≤ q := by
  refine ⟨(a : ℚ) / (b : ℚ), natDiv_of_den_ne_zero a b hb, ?_⟩
  positivity

/-- The finite clamped values: any non-`NaN` input clamps into `[0, 1]`. -/
theorem clamp01_mem (x : FP) (h : x ≠ nan) :
    ∃ q, x.clamp01 = fin q ∧ 0 ≤ q ∧ q ≤ 1 := by
  cases x with
  | fin q => exact ⟨clampQ q, rfl, clampQ_nonneg q, clampQ_le_one q⟩
  | posInf => exact ⟨1, rfl, by norm_num, le_refl 1⟩
  | negInf => exact ⟨0, rfl, le_refl 0, by norm_num⟩
  | nan => exact absurd rfl h

@[simp] theorem fle_fin_fin (a b : ℚ) : fle (fin a) (fin b) = decide (a ≤ b) := rfl

end FP

theorem ease_out_cubic_fin (q : ℚ) :
    ease_out_cubic (FP.fin q) = FP.fin ((q - 1) * (q - 1) * (q - 1) + 1) := by
  simp [ease_out_cubic]

/-- The ease-out cubic is at least `1` on arguments at least `1`. -/
theorem one_le_ease_out_cubic (q : ℚ) (h : 1 ≤ q) :
    1 ≤ (q - 1) * (q - 1) * (q - 1) + 1 := by nlinarith

/-- The ease-out cubic is nonnegative on nonnegative arguments. -/
theorem ease_out_cubic_nonneg (q : ℚ) (h : 0 ≤ q) :
    0 ≤ (q - 1) * (q - 1) * (q - 1) + 1 := by
  have hfac : (0:ℚ) ≤ (q - 1) * (q - 1) - (q - 1) + 1 := by nlinarith [sq_nonneg (q - 3/2)]
  nlinarith [mul_nonneg h hfac]

/-- The ease-out cubic stays below `1` on arguments below `1`. -/
theorem ease_out_cubic_lt_one (q : ℚ) (h : q < 1) :
    (q - 1) * (q - 1) * (q - 1) + 1 < 1 := by
  have hpos : (0:ℚ) < (1 - q) * (1 - q) * (1 - q) := by
    have h1 : (0:ℚ) < 1 - q := by linarith
    positivity
  nlinarith [hpos]

/-- A scalar that is finite and lies in the unit interval. -/
def FinUnit (x : FP) : Prop := ∃ q, x = FP.fin q ∧ 0 ≤ q ∧ q ≤ 1

/-- A finite scalar. -/
def IsFin (x : FP) : Prop := ∃ q, x = FP.fin q

/-- The numeric state invariant: the progress is a finite value of `[0, 1]`
and the baseline is finite. -/
def ProgressInv (s : HoverPressedAnimation) : Prop :=
  FinUnit s.animation_progress ∧ IsFin s.initial_progress

theorem FinUnit.isFin {x : FP} (h : FinUnit x) : IsFin x := by
  obtain ⟨q, hq, -, -⟩ := h; exact ⟨q, hq⟩

theorem finUnit_fin_zero : FinUnit (FP.fin 0) := ⟨0, rfl, le_refl 0, by norm_num⟩

theorem finUnit_fin_one : FinUnit (FP.fin 1) := ⟨1, rfl, by norm_num, le_refl 1⟩

theorem progressInv_reset (s : HoverPressedAnimation) :
    ProgressInv s.reset :=
  ⟨finUnit_fin_zero, finUnit_fin_zero.isFin⟩

theorem progressInv_on_press (s : HoverPressedAnimation) (n : ℕ) :
    ProgressInv (s.on_press n) :=
  ⟨finUnit_fin_zero, finUnit_fin_zero.isFin⟩

theorem progressInv_on_released (s : HoverPressedAnimation) (n : ℕ)
    (h : ProgressInv s) : ProgressInv (s.on_released n) :=
  ⟨h.1, h.1.isFin⟩

theorem progressInv_on_activate (s : HoverPressedAnimation) (n : ℕ) :
    ProgressInv (s.on_activate n) :=
  ⟨finUnit_fin_one, finUnit_fin_one.isFin⟩

theorem progressInv_on_cursor_moved_update (s : HoverPressedAnimation)
    (b : Bool) (n : ℕ) (h : ProgressInv s) :
    ProgressInv (s.on_cursor_moved_update b n).1 := by
  unfold HoverPressedAnimation.on_cursor_moved_update
  cases b with
  | true =>
    by_cases hs : s.started_at.isSome
    · by_cases hd : s.direction = AnimationDirection.backward
      · simpa [hs, hd] using ⟨h.1, h.1.isFin⟩
      · simpa [hs, hd] using h
    · simpa [hs] using ⟨finUnit_fin_zero, finUnit_fin_zero.isFin⟩
  | false =>
    by_cases hs : s.started_at.isSome
    · cases hd : s.direction with
      | forward => simpa [hs, hd] using ⟨h.1, h.1.isFin⟩
      | backward => simpa [hs, hd] using h
    · simpa [hs] using h

theorem progressInv_on_redraw_request_update (s : HoverPressedAnimation)
    (fd bd n : ℕ) (hfd : fd ≠ 0) (hbd : bd ≠ 0) (h : ProgressInv s) :
    ProgressInv (s.on_redraw_request_update fd bd n).1 := by
  obtain ⟨⟨p, hp, hp0, hp1⟩, ⟨i, hi⟩⟩ := h
  unfold HoverPressedAnimation.on_redraw_request_update
  cases hsa : s.started_at with
  | none => exact ⟨⟨p, hp, hp0, hp1⟩, ⟨i, hi⟩⟩
  | some t =>
    simp only [hfd, if_false]
    split_ifs with hc
    · exact ⟨⟨p, hp, hp0, hp1⟩, ⟨i, hi⟩⟩
    · cases heff : s.effect <;> cases hdir : s.direction <;>
        simp only [heff, hdir, hi,
          FP.natDiv_of_den_ne_zero _ _ hfd, FP.natDiv_of_den_ne_zero _ _ hbd,
          ease_out_cubic_fin, FP.add_fin, FP.sub_fin, FP.clamp01_fin] <;>
        first
        | exact ⟨⟨_, rfl, FP.clampQ_nonneg _, FP.clampQ_le_one _⟩, ⟨i, rfl⟩⟩
        | exact ⟨⟨p, hp, hp0, hp1⟩, ⟨i, hi⟩⟩

theorem progressInv_step (s : HoverPressedAnimation) (op : Op)
    (h : ProgressInv s) (hop : goodOp op = true) : ProgressInv (step s op) := by
  cases op with
  | opReset => exact progressInv_reset s
  | opPress n => exact progressInv_on_press s n
  | opReleased n => exact progressInv_on_released s n h
  | opActivate n => exact progressInv_on_activate s n
  | opCursorMoved b n => exact progressInv_on_cursor_moved_update s b n h
  | opRedraw fd bd n =>
    simp only [goodOp, Bool.and_eq_true, decide_eq_true_eq] at hop
    exact progressInv_on_redraw_request_update s fd bd n hop.1 hop.2 h

theorem progressInv_run (ops : List Op) :
    ∀ s : HoverPressedAnimation, ProgressInv s →
      (∀ op ∈ ops, goodOp op = true) → ProgressInv (run s ops) := by
  induction ops with
  | nil => intro s h _; exact h
  | cons op rest ih =>
    intro s h hops
    exact ih (step s op) (progressInv_step s op h (hops op (List.mem_cons_self op rest)))
      (fun o ho => hops o (List.mem_cons_of_mem op ho))

theorem finUnit_fle01 (x : FP) (h : FinUnit x) :
    FP.fle (FP.fin 0) x = true ∧ FP.fle x (FP.fin 1) = true := by
  obtain ⟨q, hq, h0, h1⟩ := h
  subst hq
  simp [FP.fle_fin_fin, h0, h1]

/-- The idle invariant: whenever the machine is not running, its progress
is exactly `0.0`. -/
def IdleZero (s : HoverPressedAnimation) : Prop :=
  s.started_at = none → s.animation_progress = FP.fin 0

theorem on_redraw_of_idle (s : HoverPressedAnimation) (fd bd n : ℕ)
    (hsa : s.started_at = none) :
    s.on_redraw_request_update fd bd n = (s, false) := by
  unfold HoverPressedAnimation.on_redraw_request_update
  simp only [hsa]

theorem idleZero_on_redraw (s : HoverPressedAnimation) (fd bd n : ℕ)
    (h : IdleZero s) : IdleZero (s.on_redraw_request_update fd bd n).1 := by
  unfold HoverPressedAnimation.on_redraw_request_update
  cases hsa : s.started_at with
  | none => exact h
  | some t =>
    by_cases hfd : fd = 0
    · simp only [hfd, if_true]
      split_ifs with hc
      · exfalso
        have h1 := hc.1
        simp at h1
      · intro hn
        exfalso
        cases heff : s.effect <;> cases hdir : s.direction <;>
          simp [heff, hdir, hsa] at hn
    · simp only [hfd, if_false]
      split_ifs with hc
      · intro _
        exact hc.1
      · intro hn
        exfalso
        cases heff : s.effect <;> cases hdir : s.direction <;>
          simp [heff, hdir, hsa] at hn

theorem idleZero_on_cursor_moved_update (s : HoverPressedAnimation)
    (b : Bool) (n : ℕ) (h : IdleZero s) :
    IdleZero (s.on_cursor_moved_update b n).1 := by
  unfold HoverPressedAnimation.on_cursor_moved_update
  cases b with
  | true =>
    by_cases hs : s.started_at.isSome
    · by_cases hd : s.direction = AnimationDirection.backward <;>
        · intro hn
          exfalso
          simp only [Option.isSome_iff_exists] at hs
          obtain ⟨t, ht⟩ := hs
          simp [hd, ht] at hn
    · intro hn
      exfalso
      simp [hs] at hn
  | false =>
    by_cases hs : s.started_at.isSome
    · cases hd : s.direction with
      | forward =>
        intro hn
        exfalso
        simp [hs, hd] at hn
      | backward =>
        intro hn
        simp only [Option.isSome_iff_exists] at hs
        obtain ⟨t, ht⟩ := hs
        simp [hd, ht] at hn
    · simpa [hs] using h

theorem idleZero_step (s : HoverPressedAnimation) (op : Op) (h : IdleZero s) :
    IdleZero (step s op) := by
  cases op with
  | opReset => intro _; rfl
  | opPress n => intro hn; simp [step, HoverPressedAnimation.on_press] at hn
  | opReleased n => intro hn; simp [step, HoverPressedAnimation.on_released] at hn
  | opActivate n => intro hn; simp [step, HoverPressedAnimation.on_activate] at hn
  | opCursorMoved b n => exact idleZero_on_cursor_moved_update s b n h
  | opRedraw fd bd n => exact idleZero_on_redraw s fd bd n h

theorem idleZero_run (ops : List Op) :
    ∀ s : HoverPressedAnimation, IdleZero s → IdleZero (run s ops) := by
  induction ops with
  | nil => intro s h; exact h
  | cons op rest ih => intro s h; exact ih (step s op) (idleZero_step s op h)

theorem on_redraw_snd_of_running (s : HoverPressedAnimation) (fd bd n t : ℕ)
    (hsa : s.started_at = some t) :
    (s.on_redraw_request_update fd bd n).2 = true := by
  unfold HoverPressedAnimation.on_redraw_request_update
  by_cases hfd : fd = 0 <;>
    simp only [hsa, hfd, if_true, if_false] <;>
    split_ifs <;>
    first
    | rfl
    | (cases heff : s.effect <;> cases hdir : s.direction <;> simp [heff, hdir])

theorem on_redraw_forward_keeps (s : HoverPressedAnimation) (fd bd n t : ℕ)
    (hsa : s.started_at = some t)
    (hdir : s.direction = AnimationDirection.forward) :
    (s.on_redraw_request_update fd bd n).1.started_at = some t ∧
    (s.on_redraw_request_update fd bd n).1.direction = AnimationDirection.forward := by
  unfold HoverPressedAnimation.on_redraw_request_update
  by_cases hfd : fd = 0 <;>
    simp only [hsa, hfd, if_true, if_false] <;>
    split_ifs with hc
  · exact absurd hc.2 (by simp [hdir])
  · cases heff : s.effect <;> simp [heff, hdir, hsa]
  · exact absurd hc.2 (by simp [hdir])
  · cases heff : s.effect <;> simp [heff, hdir, hsa]

theorem runTicks_forward_keeps (ticks : List (ℕ × ℕ × ℕ)) :
    ∀ (s : HoverPressedAnimation) (t : ℕ), s.started_at = some t →
      s.direction = AnimationDirection.forward →
      (runTicks s ticks).started_at = some t ∧
      (runTicks s ticks).direction = AnimationDirection.forward := by
  induction ticks with
  | nil => intro s t hsa hdir; exact ⟨hsa, hdir⟩
  | cons x rest ih =>
    intro s t hsa hdir
    have hstep := on_redraw_forward_keeps s x.1 x.2.1 x.2.2 t hsa hdir
    exact ih (s.on_redraw_request_update x.1 x.2.1 x.2.2).1 t hstep.1 hstep.2

/-- The state of a backward (unwinding) run that started at `tr` from the
hovered extreme: baseline `1.0`, current progress `q`. -/
def backwardRun (tr : ℕ) (q : ℚ) (eff : AnimationEffect) : HoverPressedAnimation :=
  ⟨AnimationDirection.backward, some tr, FP.fin q, FP.fin 1, eff⟩

theorem backwardRun_tick_linear (tr bd fd m : ℕ) (q : ℚ)
    (hq : q ≠ 0) (hfd : fd ≠ 0) (hbd : bd ≠ 0) :
    (backwardRun tr q AnimationEffect.linear).on_redraw_request_update fd bd m =
      (backwardRun tr (FP.clampQ (1 - ((m - tr : ℕ) : ℚ) / (bd : ℚ)))
        AnimationEffect.linear, true) := by
  unfold backwardRun HoverPressedAnimation.on_redraw_request_update
  simp only [hfd, if_false]
  rw [if_neg]
  · simp [FP.natDiv_of_den_ne_zero _ _ hbd]
  · simp [hq]

theorem backwardRun_tick_easeOut (tr bd fd m : ℕ) (q : ℚ)
    (hq : q ≠ 0) (hfd : fd ≠ 0) (hbd : bd ≠ 0) :
    (backwardRun tr q AnimationEffect.easeOut).on_redraw_request_update fd bd m =
      (backwardRun tr
        (FP.clampQ (1 - ((((m - tr : ℕ) : ℚ) / (bd : ℚ) - 1) *
          (((m - tr : ℕ) : ℚ) / (bd : ℚ) - 1) * (((m - tr : ℕ) : ℚ) / (bd : ℚ) - 1) + 1)))
        AnimationEffect.easeOut, true) := by
  unfold backwardRun HoverPressedAnimation.on_redraw_request_update
  simp only [hfd, if_false]
  rw [if_neg]
  · simp [FP.natDiv_of_den_ne_zero _ _ hbd, ease_out_cubic_fin]
  · simp [hq]

theorem backwardRun_tick_settled (tr bd fd m : ℕ) (eff : AnimationEffect)
    (hfd : fd ≠ 0) :
    (backwardRun tr 0 eff).on_redraw_request_update fd bd m =
      ({ backwardRun tr 0 eff with started_at := none }, true) := by
  unfold backwardRun HoverPressedAnimation.on_redraw_request_update
  simp only [hfd, if_false]
  rw [if_pos]
  constructor <;> trivial

theorem one_le_cast_div (a b : ℕ) (hb : b ≠ 0) (h : b ≤ a) :
    1 ≤ (a : ℚ) / (b : ℚ) := by
  rw [one_le_div (by exact_mod_cast Nat.pos_of_ne_zero hb)]
  exact_mod_cast h

theorem cast_div_lt_one (a b : ℕ) (h : a < b) :
    (a : ℚ) / (b : ℚ) < 1 := by
  rw [div_lt_one (by exact_mod_cast lt_of_le_of_lt (Nat.zero_le a) h)]
  exact_mod_cast h

theorem cast_div_nonneg (a b : ℕ) : 0 ≤ (a : ℚ) / (b : ℚ) := by positivity

theorem runTicks_nil (s : HoverPressedAnimation) : runTicks s [] = s := rfl

theorem runTicks_cons (s : HoverPressedAnimation) (x : ℕ × ℕ × ℕ)
    (l : List (ℕ × ℕ × ℕ)) :
    runTicks s (x :: l) = runTicks (s.on_redraw_request_update x.1 x.2.1 x.2.2).1 l := rfl

theorem pressRun_tick_reaches_one (eff : AnimationEffect)
    (heff : eff = AnimationEffect.linear ∨ eff = AnimationEffect.easeOut)
    (fd bd t0 tp : ℕ) (hfd : fd ≠ 0) (htp : t0 + fd ≤ tp) :
    (⟨AnimationDirection.forward, some t0, FP.fin 0, FP.fin 0, eff⟩ :
        HoverPressedAnimation).on_redraw_request_update fd bd tp =
      (⟨AnimationDirection.forward, some t0, FP.fin 1, FP.fin 0, eff⟩, true) := by
  have helap : fd ≤ tp - t0 := by omega
  have hv : 1 ≤ ((tp - t0 : ℕ) : ℚ) / (fd : ℚ) := one_le_cast_div _ _ hfd helap
  rcases heff with h | h <;> subst h <;>
    unfold HoverPressedAnimation.on_redraw_request_update <;>
    simp only [hfd, if_false] <;>
    rw [if_neg (by simp)] <;>
    simp only [FP.natDiv_of_den_ne_zero _ _ hfd, ease_out_cubic_fin, FP.add_fin,
      FP.clamp01_fin]
  · rw [FP.clampQ_of_one_le _ (by linarith)]
  · rw [FP.clampQ_of_one_le _ (by nlinarith [one_le_ease_out_cubic _ hv])]

theorem backwardRun_tick_final_linear (tr bd fd n1 : ℕ) (q : ℚ)
    (hq : q ≠ 0) (hfd : fd ≠ 0) (hbd : bd ≠ 0) (hn : tr + bd ≤ n1) :
    (backwardRun tr q AnimationEffect.linear).on_redraw_request_update fd bd n1 =
      (backwardRun tr 0 AnimationEffect.linear, true) := by
  rw [backwardRun_tick_linear tr bd fd n1 q hq hfd hbd]
  have hv : 1 ≤ ((n1 - tr : ℕ) : ℚ) / (bd : ℚ) := one_le_cast_div _ _ hbd (by omega)
  rw [FP.clampQ_of_nonpos _ (by linarith)]

theorem backwardRun_tick_final_easeOut (tr bd fd n1 : ℕ) (q : ℚ)
    (hq : q ≠ 0) (hfd : fd ≠ 0) (hbd : bd ≠ 0) (hn : tr + bd ≤ n1) :
    (backwardRun tr q AnimationEffect.easeOut).on_redraw_request_update fd bd n1 =
      (backwardRun tr 0 AnimationEffect.easeOut, true) := by
  rw [backwardRun_tick_easeOut tr bd fd n1 q hq hfd hbd]
  have hv : 1 ≤ ((n1 - tr : ℕ) : ℚ) / (bd : ℚ) := one_le_cast_div _ _ hbd (by omega)
  rw [FP.clampQ_of_nonpos _ (by nlinarith [one_le_ease_out_cubic _ hv])]

theorem backwardRun_runTicks_mid_linear (tr bd fd : ℕ) (hfd : fd ≠ 0) (hbd : bd ≠ 0)
    (mid : List ℕ) (hmid : ∀ m ∈ mid, m < tr + bd) :
    ∀ q : ℚ, 0 < q → q ≤ 1 →
      ∃ q2, runTicks (backwardRun tr q AnimationEffect.linear)
          (mid.map fun m => (fd, bd, m)) = backwardRun tr q2 AnimationEffect.linear ∧
        0 < q2 ∧ q2 ≤ 1 := by
  induction mid with
  | nil => intro q h0 h1; exact ⟨q, rfl, h0, h1⟩
  | cons m rest ih =>
    intro q h0 h1
    have hm : m < tr + bd := hmid m (List.mem_cons_self m rest)
    have hv1 : ((m - tr : ℕ) : ℚ) / (bd : ℚ) < 1 := cast_div_lt_one _ _ (by omega)
    have hv0 : 0 ≤ ((m - tr : ℕ) : ℚ) / (bd : ℚ) := cast_div_nonneg _ _
    have hcl : FP.clampQ (1 - ((m - tr : ℕ) : ℚ) / (bd : ℚ)) =
        1 - ((m - tr : ℕ) : ℚ) / (bd : ℚ) :=
      FP.clampQ_of_mem _ (by linarith) (by linarith)
    rw [List.map_cons, runTicks_cons]
    have hstep := backwardRun_tick_linear tr bd fd m q (ne_of_gt h0) hfd hbd
    rw [hstep, hcl]
    exact ih (fun o ho => hmid o (List.mem_cons_of_mem m ho)) _ (by linarith) (by linarith)

theorem backwardRun_runTicks_mid_easeOut (tr bd fd : ℕ) (hfd : fd ≠ 0) (hbd : bd ≠ 0)
    (mid : List ℕ) (hmid : ∀ m ∈ mid, m < tr + bd) :
    ∀ q : ℚ, 0 < q → q ≤ 1 →
      ∃ q2, runTicks (backwardRun tr q AnimationEffect.easeOut)
          (mid.map fun m => (fd, bd, m)) = backwardRun tr q2 AnimationEffect.easeOut ∧
        0 < q2 ∧ q2 ≤ 1 := by
  induction mid with
  | nil => intro q h0 h1; exact ⟨q, rfl, h0, h1⟩
  | cons m rest ih =>
    intro q h0 h1
    have hm : m < tr + bd := hmid m (List.mem_cons_self m rest)
    have hv1 : ((m - tr : ℕ) : ℚ) / (bd : ℚ) < 1 := cast_div_lt_one _ _ (by omega)
    have hv0 : 0 ≤ ((m - tr : ℕ) : ℚ) / (bd : ℚ) := cast_div_nonneg _ _
    have he0 : 0 ≤ (((m - tr : ℕ) : ℚ) / (bd : ℚ) - 1) *
        (((m - tr : ℕ) : ℚ) / (bd : ℚ) - 1) * (((m - tr : ℕ) : ℚ) / (bd : ℚ) - 1) + 1 :=
      ease_out_cubic_nonneg _ hv0
    have he1 : (((m - tr : ℕ) : ℚ) / (bd : ℚ) - 1) *
        (((m - tr : ℕ) : ℚ) / (bd : ℚ) - 1) * (((m - tr : ℕ) : ℚ) / (bd : ℚ) - 1) + 1 < 1 :=
      ease_out_cubic_lt_one _ hv1
    have hcl : FP.clampQ (1 - ((((m - tr : ℕ) : ℚ) / (bd : ℚ) - 1) *
        (((m - tr : ℕ) : ℚ) / (bd : ℚ) - 1) * (((m - tr : ℕ) : ℚ) / (bd : ℚ) - 1) + 1)) =
        1 - ((((m - tr : ℕ) : ℚ) / (bd : ℚ) - 1) *
        (((m - tr : ℕ) : ℚ) / (bd : ℚ) - 1) * (((m - tr : ℕ) : ℚ) / (bd : ℚ) - 1) + 1) :=
      FP.clampQ_of_mem _ (by linarith) (by linarith)
    rw [List.map_cons, runTicks_cons]
    have hstep := backwardRun_tick_easeOut tr bd fd m q (ne_of_gt h0) hfd hbd
    rw [hstep, hcl]
    exact ih (fun o ho => hmid o (List.mem_cons_of_mem m ho)) _ (by linarith) (by linarith)

theorem on_cursor_enter_running_backward (s : HoverPressedAnimation) (now t : ℕ)
    (hsa : s.started_at = some t)
    (hdir : s.direction = AnimationDirection.backward) :
    s.on_cursor_moved_update true now =
      ({ s with direction := AnimationDirection.forward,
                initial_progress := s.animation_progress,
                started_at := some now }, s.animation_progress.neOne) := by
  unfold HoverPressedAnimation.on_cursor_moved_update
  simp [hsa, hdir]

theorem on_cursor_enter_running_forward (s : HoverPressedAnimation) (now t : ℕ)
    (hsa : s.started_at = some t)
    (hdir : s.direction = AnimationDirection.forward) :
    s.on_cursor_moved_update true now = (s, s.animation_progress.neOne) := by
  unfold HoverPressedAnimation.on_cursor_moved_update
  simp [hsa, hdir]

theorem on_cursor_leave_running_forward (s : HoverPressedAnimation) (now t : ℕ)
    (hsa : s.started_at = some t)
    (hdir : s.direction = AnimationDirection.forward) :
    s.on_cursor_moved_update false now =
      ({ s with direction := AnimationDirection.backward,
                initial_progress := s.animation_progress,
                started_at := some now }, true) := by
  unfold HoverPressedAnimation.on_cursor_moved_update
  simp [hsa, hdir]

/-- C1 counterexample: the claim fails as stated.  After `on_press` at
`t = 0`, a redraw tick with `forward_duration_ms = 0` in the same
millisecond (elapsed 0 ms) computes `initial_progress + 0.0/0.0 = NaN`
(the snap to `1.0` is overwritten by the Linear effect computation), and
`clamp` keeps `NaN`, so `0.0 <= animation_progress <= 1.0` is false. -/
theorem progress_unit_interval_counterexample :
    (run HoverPressedAnimation.default
        [Op.opPress 0, Op.opRedraw 0 1 0]).animation_progress = FP.nan ∧
    ¬ (FP.fle (FP.fin 0) ((run HoverPressedAnimation.default
          [Op.opPress 0, Op.opRedraw 0 1 0]).animation_progress) = true ∧
       FP.fle ((run HoverPressedAnimation.default
          [Op.opPress 0, Op.opRedraw 0 1 0]).animation_progress) (FP.fin 1) = true) := by
  with_unfolding_all decide

/-- C1 (amended): for a machine constructed with any effect, and for
every sequence of the public operations in which every
`on_redraw_request_update` call receives nonzero `forward_duration_ms`
and `backward_duration_ms`, and for all monotonic timestamps, the field
`animation_progress` satisfies `0.0 <= animation_progress <= 1.0` after
every operation. -/
theorem progress_in_unit_interval (eff : AnimationEffect) (ops : List Op)
    (hops : ∀ op ∈ ops, goodOp op = true) :
    FP.fle (FP.fin 0)
        ((run (HoverPressedAnimation.new eff) ops).animation_progress) = true ∧
    FP.fle ((run (HoverPressedAnimation.new eff) ops).animation_progress)
        (FP.fin 1) = true :=
  finUnit_fle01 _ (progressInv_run ops (HoverPressedAnimation.new eff)
    ⟨finUnit_fin_zero, finUnit_fin_zero.isFin⟩ hops).1

/-- C1 witness: the amended invariant evaluated on a concrete press,
tick, release, tick trace with 10 ms durations. -/
theorem progress_in_unit_interval_witness :
    FP.fle (FP.fin 0) ((run (HoverPressedAnimation.new AnimationEffect.easeOut)
        [Op.opPress 0, Op.opRedraw 10 10 5, Op.opReleased 5,
         Op.opRedraw 10 10 9]).animation_progress) = true ∧
    FP.fle ((run (HoverPressedAnimation.new AnimationEffect.easeOut)
        [Op.opPress 0, Op.opRedraw 10 10 5, Op.opReleased 5,
         Op.opRedraw 10 10 9]).animation_progress) (FP.fin 1) = true :=
  progress_in_unit_interval AnimationEffect.easeOut
    [Op.opPress 0, Op.opRedraw 10 10 5, Op.opReleased 5, Op.opRedraw 10 10 9]
    (by decide)

/-- C8: in every state reachable from the default state by the public
operations (any durations, any timestamps), `started_at = none` implies
`animation_progress = 0.0`: there is no idle rest state with progress 1. -/
theorem idle_state_has_zero_progress (ops : List Op)
    (h : (run HoverPressedAnimation.default ops).started_at = none) :
    (run HoverPressedAnimation.default ops).animation_progress = FP.fin 0 :=
  idleZero_run ops HoverPressedAnimation.default (fun _ => rfl) h

/-- C8 witness: the empty operation sequence leaves the default state,
which is idle with progress `0.0`. -/
theorem idle_state_has_zero_progress_witness :
    (run HoverPressedAnimation.default []).animation_progress = FP.fin 0 :=
  idle_state_has_zero_progress [] rfl

/-- C9: for every state running with direction Forward, any number of
`on_cursor_moved_update(true)` calls leaves `started_at`,
`initial_progress`, `direction` and `animation_progress` unchanged. -/
theorem cursor_enter_idempotent_running_forward (s : HoverPressedAnimation)
    (t : ℕ) (nows : List ℕ) (hsa : s.started_at = some t)
    (hdir : s.direction = AnimationDirection.forward) :
    (nows.foldl (fun st n => (st.on_cursor_moved_update true n).1) s).started_at
        = s.started_at ∧
    (nows.foldl (fun st n => (st.on_cursor_moved_update true n).1) s).initial_progress
        = s.initial_progress ∧
    (nows.foldl (fun st n => (st.on_cursor_moved_update true n).1) s).direction
        = s.direction ∧
    (nows.foldl (fun st n => (st.on_cursor_moved_update true n).1) s).animation_progress
        = s.animation_progress := by
  have hfix : nows.foldl (fun st n => (st.on_cursor_moved_update true n).1) s = s := by
    induction nows with
    | nil => rfl
    | cons n rest ih =>
      have h1 : (s.on_cursor_moved_update true n).1 = s := by
        rw [on_cursor_enter_running_forward s n t hsa hdir]
      rw [List.foldl_cons, h1, ih]
  rw [hfix]
  exact ⟨rfl, rfl, rfl, rfl⟩

/-- C9 witness: the idempotence instantiated on a concrete running
Forward state and three cursor-enter events. -/
theorem cursor_enter_idempotent_running_forward_witness :
    (([1, 2, 3] : List ℕ).foldl (fun st n => (st.on_cursor_moved_update true n).1)
        (⟨AnimationDirection.forward, some 0, FP.fin (1/2), FP.fin 0,
          AnimationEffect.linear⟩ : HoverPressedAnimation)).started_at
      = (⟨AnimationDirection.forward, some 0, FP.fin (1/2), FP.fin 0,
          AnimationEffect.linear⟩ : HoverPressedAnimation).started_at ∧
    (([1, 2, 3] : List ℕ).foldl (fun st n => (st.on_cursor_moved_update true n).1)
        (⟨AnimationDirection.forward, some 0, FP.fin (1/2), FP.fin 0,
          AnimationEffect.linear⟩ : HoverPressedAnimation)).initial_progress
      = (⟨AnimationDirection.forward, some 0, FP.fin (1/2), FP.fin 0,
          AnimationEffect.linear⟩ : HoverPressedAnimation).initial_progress ∧
    (([1, 2, 3] : List ℕ).foldl (fun st n => (st.on_cursor_moved_update true n).1)
        (⟨AnimationDirection.forward, some 0, FP.fin (1/2), FP.fin 0,
          AnimationEffect.linear⟩ : HoverPressedAnimation)).direction
      = (⟨AnimationDirection.forward, some 0, FP.fin (1/2), FP.fin 0,
          AnimationEffect.linear⟩ : HoverPressedAnimation).direction ∧
    (([1, 2, 3] : List ℕ).foldl (fun st n => (st.on_cursor_moved_update true n).1)
        (⟨AnimationDirection.forward, some 0, FP.fin (1/2), FP.fin 0,
          AnimationEffect.linear⟩ : HoverPressedAnimation)).animation_progress
      = (⟨AnimationDirection.forward, some 0, FP.fin (1/2), FP.fin 0,
          AnimationEffect.linear⟩ : HoverPressedAnimation).animation_progress :=
  cursor_enter_idempotent_running_forward _ 0 [1, 2, 3] rfl rfl

/-- C6 counterexample: from the reachable state `on_activate` at `t = 0`
(running Backward with progress `1.0`), `on_cursor_moved_update(true)`
performs the reversal but returns `false` (`progress != 1.0`), not
`true` as the claim states. -/
theorem cursor_enter_backward_counterexample :
    (HoverPressedAnimation.default.on_activate 0).started_at = some 0 ∧
    (HoverPressedAnimation.default.on_activate 0).direction
      = AnimationDirection.backward ∧
    ((HoverPressedAnimation.default.on_activate 0).on_cursor_moved_update
        true 1).2 = false := by
  with_unfolding_all decide

/-- C6 (amended): for every state running with direction Backward,
`on_cursor_moved_update(true)` sets direction Forward, sets
`initial_progress` to the current `animation_progress`, restarts the
start timestamp, keeps `animation_progress`, and returns
`animation_progress != 1.0` (true unless the progress is exactly 1.0). -/
theorem cursor_enter_running_backward_reverses (s : HoverPressedAnimation)
    (now t : ℕ) (hsa : s.started_at = some t)
    (hdir : s.direction = AnimationDirection.backward) :
    (s.on_cursor_moved_update true now).1.direction
      = AnimationDirection.forward ∧
    (s.on_cursor_moved_update true now).1.initial_progress
      = s.animation_progress ∧
    (s.on_cursor_moved_update true now).1.started_at = some now ∧
    (s.on_cursor_moved_update true now).1.animation_progress
      = s.animation_progress ∧
    (s.on_cursor_moved_update true now).2 = s.animation_progress.neOne := by
  rw [on_cursor_enter_running_backward s now t hsa hdir]
  exact ⟨rfl, rfl, rfl, rfl, rfl⟩

/-- C6 witness: the reversal instantiated on a concrete running Backward
state with progress `1/2`, where the call returns true. -/
theorem cursor_enter_running_backward_reverses_witness :
    ((⟨AnimationDirection.backward, some 0, FP.fin (1/2), FP.fin 1,
        AnimationEffect.linear⟩ : HoverPressedAnimation).on_cursor_moved_update
        true 7).1.direction = AnimationDirection.forward ∧
    ((⟨AnimationDirection.backward, some 0, FP.fin (1/2), FP.fin 1,
        AnimationEffect.linear⟩ : HoverPressedAnimation).on_cursor_moved_update
        true 7).1.initial_progress = FP.fin (1/2) ∧
    ((⟨AnimationDirection.backward, some 0, FP.fin (1/2), FP.fin 1,
        AnimationEffect.linear⟩ : HoverPressedAnimation).on_cursor_moved_update
        true 7).1.started_at = some 7 ∧
    ((⟨AnimationDirection.backward, some 0, FP.fin (1/2), FP.fin 1,
        AnimationEffect.linear⟩ : HoverPressedAnimation).on_cursor_moved_update
        true 7).1.animation_progress = FP.fin (1/2) ∧
    ((⟨AnimationDirection.backward, some 0, FP.fin (1/2), FP.fin 1,
        AnimationEffect.linear⟩ : HoverPressedAnimation).on_cursor_moved_update
        true 7).2 = (FP.fin (1/2)).neOne :=
  cursor_enter_running_backward_reverses _ 7 0 rfl rfl

/-- C2 counterexample: the claim fails for `on_press` and `on_activate`.
From the reachable running Backward state with progress `1/2`
(`on_activate` then one tick), `on_press` changes direction to Forward
but resets progress to `0.0` and the baseline to `0.0`, not the observed
`1/2`; symmetrically, from the reachable running Forward state with
progress `1/2` (`on_press` then one tick), `on_activate` changes
direction to Backward but snaps progress and baseline to `1.0`. -/
theorem reversal_continuity_counterexample :
    ((run HoverPressedAnimation.default
        [Op.opActivate 0, Op.opRedraw 10 10 5]).direction
          = AnimationDirection.backward ∧
     (run HoverPressedAnimation.default
        [Op.opActivate 0, Op.opRedraw 10 10 5]).animation_progress
          = FP.fin (1/2) ∧
     ((run HoverPressedAnimation.default
        [Op.opActivate 0, Op.opRedraw 10 10 5]).on_press 5).direction
          = AnimationDirection.forward ∧
     ((run HoverPressedAnimation.default
        [Op.opActivate 0, Op.opRedraw 10 10 5]).on_press 5).animation_progress
          ≠ FP.fin (1/2) ∧
     ((run HoverPressedAnimation.default
        [Op.opActivate 0, Op.opRedraw 10 10 5]).on_press 5).initial_progress
          ≠ FP.fin (1/2)) ∧
    ((run HoverPressedAnimation.default
        [Op.opPress 0, Op.opRedraw 10 10 5]).direction
          = AnimationDirection.forward ∧
     (run HoverPressedAnimation.default
        [Op.opPress 0, Op.opRedraw 10 10 5]).animation_progress
          = FP.fin (1/2) ∧
     ((run HoverPressedAnimation.default
        [Op.opPress 0, Op.opRedraw 10 10 5]).on_activate 6).direction
          = AnimationDirection.backward ∧
     ((run HoverPressedAnimation.default
        [Op.opPress 0, Op.opRedraw 10 10 5]).on_activate 6).animation_progress
          ≠ FP.fin (1/2) ∧
     ((run HoverPressedAnimation.default
        [Op.opPress 0, Op.opRedraw 10 10 5]).on_activate 6).initial_progress
          ≠ FP.fin (1/2)) := by
  with_unfolding_all decide

/-- C2 (amended): for `on_released` and the direction-reversing branches
of `on_cursor_moved_update` (entering while running Backward, leaving
while running Forward), `initial_progress` is set to the
`animation_progress` observed at that instant and `animation_progress`
is unchanged across the call; `on_press` and `on_activate` instead
discard the observed progress, setting progress and baseline to `0.0`
resp. `1.0`. -/
theorem reversal_continuity (s : HoverPressedAnimation) (now t : ℕ)
    (hsa : s.started_at = some t) :
    ((s.on_released now).initial_progress = s.animation_progress ∧
     (s.on_released now).animation_progress = s.animation_progress) ∧
    (s.direction = AnimationDirection.backward →
      (s.on_cursor_moved_update true now).1.initial_progress
          = s.animation_progress ∧
      (s.on_cursor_moved_update true now).1.animation_progress
          = s.animation_progress) ∧
    (s.direction = AnimationDirection.forward →
      (s.on_cursor_moved_update false now).1.initial_progress
          = s.animation_progress ∧
      (s.on_cursor_moved_update false now).1.animation_progress
          = s.animation_progress) ∧
    ((s.on_press now).animation_progress = FP.fin 0 ∧
     (s.on_press now).initial_progress = FP.fin 0) ∧
    ((s.on_activate now).animation_progress = FP.fin 1 ∧
     (s.on_activate now).initial_progress = FP.fin 1) := by
  refine ⟨⟨rfl, rfl⟩, fun hdir => ?_, fun hdir => ?_, ⟨rfl, rfl⟩, ⟨rfl, rfl⟩⟩
  · rw [on_cursor_enter_running_backward s now t hsa hdir]
    exact ⟨rfl, rfl⟩
  · rw [on_cursor_leave_running_forward s now t hsa hdir]
    exact ⟨rfl, rfl⟩

/-- C2 witness: continuity instantiated on a concrete running Backward
state with progress `1/3`. -/
theorem reversal_continuity_witness :
    (((⟨AnimationDirection.backward, some 2, FP.fin (1/3), FP.fin 1,
        AnimationEffect.easeOut⟩ : HoverPressedAnimation).on_released 9).initial_progress
      = FP.fin (1/3)) ∧
    (((⟨AnimationDirection.backward, some 2, FP.fin (1/3), FP.fin 1,
        AnimationEffect.easeOut⟩ : HoverPressedAnimation).on_cursor_moved_update
        true 9).1.initial_progress = FP.fin (1/3)) ∧
    (((⟨AnimationDirection.backward, some 2, FP.fin (1/3), FP.fin 1,
        AnimationEffect.easeOut⟩ : HoverPressedAnimation).on_cursor_moved_update
        true 9).1.animation_progress = FP.fin (1/3)) :=
  ⟨(reversal_continuity _ 9 2 rfl).1.1,
   ((reversal_continuity _ 9 2 rfl).2.1 rfl).1,
   ((reversal_continuity _ 9 2 rfl).2.1 rfl).2⟩

/-- C3 counterexample: the `forward_duration_ms == 0` snap is not
confined to the forward leg.  From the reachable running Backward state
with progress `0.0` (press, then released with no tick in between), a
tick with `forward_duration_ms = 0` overwrites the progress with `1.0`
before the completion check, so the machine keeps running, while the
same tick with any nonzero forward duration stops it. -/
theorem forward_snap_backward_counterexample :
    (run HoverPressedAnimation.default
        [Op.opPress 0, Op.opReleased 0]).direction
          = AnimationDirection.backward ∧
    (run HoverPressedAnimation.default
        [Op.opPress 0, Op.opReleased 0]).animation_progress = FP.fin 0 ∧
    ((run HoverPressedAnimation.default
        [Op.opPress 0, Op.opReleased 0]).on_redraw_request_update
        0 5 3).1.started_at = some 0 ∧
    ((run HoverPressedAnimation.default
        [Op.opPress 0, Op.opReleased 0]).on_redraw_request_update
        5 5 3).1.started_at = none := by
  with_unfolding_all decide

/-- C3 (amended): for every running state with direction Backward whose
progress is not `0.0` and whose effect is Linear or EaseOut, a tick with
`forward_duration_ms = 0` produces exactly the same state and return
value as the same tick with any other forward duration (the backward
progress computation does not involve the forward duration). -/
theorem forward_snap_spares_backward_computation (s : HoverPressedAnimation)
    (t fd bd n : ℕ) (hsa : s.started_at = some t)
    (hdir : s.direction = AnimationDirection.backward)
    (hpr : s.animation_progress ≠ FP.fin 0)
    (heff : s.effect = AnimationEffect.linear ∨
      s.effect = AnimationEffect.easeOut) :
    s.on_redraw_request_update 0 bd n = s.on_redraw_request_update fd bd n := by
  by_cases hfd : fd = 0
  · rw [hfd]
  · unfold HoverPressedAnimation.on_redraw_request_update
    rcases heff with h | h <;>
      simp [hsa, hfd, hpr, h, hdir]

/-- C3 witness: the equal behaviour evaluated on a concrete running
Backward state, with forward durations `0` and `42`. -/
theorem forward_snap_spares_backward_computation_witness :
    (⟨AnimationDirection.backward, some 0, FP.fin (1/2), FP.fin 1,
        AnimationEffect.linear⟩ :
      HoverPressedAnimation).on_redraw_request_update 0 10 5 =
    (⟨AnimationDirection.backward, some 0, FP.fin (1/2), FP.fin 1,
        AnimationEffect.linear⟩ :
      HoverPressedAnimation).on_redraw_request_update 42 10 5 :=
  forward_snap_spares_backward_computation _ 0 42 10 5 rfl rfl
    (by with_unfolding_all decide) (Or.inl rfl)

/-- C5 (evaluation at the failing input): with `forward_duration_ms = 0`,
the very first tick after a Forward start at the same millisecond
(elapsed 0 ms) leaves `animation_progress = NaN` for the Linear and
EaseOut effects: the snap to `1.0` at the top of the tick is overwritten
by the effect computation, which divides `0.0 / 0.0`.  The snapped `1.0`
survives only for effect None, or when at least one millisecond has
elapsed (where the division yields `+inf` and the clamp gives `1.0`). -/
theorem zero_forward_duration_first_tick_eval :
    (((HoverPressedAnimation.new AnimationEffect.linear).on_press
        0).on_redraw_request_update 0 1 0).1.animation_progress = FP.nan ∧
    (((HoverPressedAnimation.new AnimationEffect.easeOut).on_press
        0).on_redraw_request_update 0 1 0).1.animation_progress = FP.nan ∧
    (((HoverPressedAnimation.new AnimationEffect.none).on_press
        0).on_redraw_request_update 0 1 0).1.animation_progress = FP.fin 1 ∧
    (((HoverPressedAnimation.new AnimationEffect.linear).on_press
        0).on_redraw_request_update 0 1 1).1.animation_progress = FP.fin 1 ∧
    (((HoverPressedAnimation.new AnimationEffect.easeOut).on_press
        0).on_redraw_request_update 0 1 1).1.animation_progress = FP.fin 1 := by
  with_unfolding_all decide

theorem on_cursor_keeps_running (s : HoverPressedAnimation) (b : Bool)
    (n t : ℕ) (hsa : s.started_at = some t) :
    ∃ u, (s.on_cursor_moved_update b n).1.started_at = some u := by
  unfold HoverPressedAnimation.on_cursor_moved_update
  cases b with
  | true =>
    by_cases hd : s.direction = AnimationDirection.backward
    · exact ⟨n, by simp [hsa, hd]⟩
    · exact ⟨t, by simp [hsa, hd]⟩
  | false =>
    cases hd : s.direction with
    | forward => exact ⟨n, by simp [hsa, hd]⟩
    | backward => exact ⟨t, by simp [hsa, hd]⟩

theorem on_redraw_clears_only_settled_backward (s : HoverPressedAnimation)
    (fd bd n t : ℕ) (hsa : s.started_at = some t)
    (hn : (s.on_redraw_request_update fd bd n).1.started_at = none) :
    s.animation_progress = FP.fin 0 ∧
    s.direction = AnimationDirection.backward := by
  unfold HoverPressedAnimation.on_redraw_request_update at hn
  by_cases hfd : fd = 0
  · simp only [hsa, hfd, if_true] at hn
    rw [if_neg (by simp)] at hn
    exfalso
    cases heff : s.effect <;> cases hdir : s.direction <;>
      simp [heff, hdir, hsa] at hn
  · simp only [hsa, hfd, if_false] at hn
    by_cases hc : s.animation_progress = FP.fin 0 ∧
        s.direction = AnimationDirection.backward
    · exact hc
    · rw [if_neg hc] at hn
      exfalso
      cases heff : s.effect <;> cases hdir : s.direction <;>
        simp [heff, hdir, hsa] at hn

/-- The clearing discipline: `started_at` is set to `none` by a public
operation on a running state only by `reset`, or by a redraw tick taken
on a state whose progress is `0.0` and whose direction is Backward. -/
def ClearedOnlyByResetOrFinishedUnwind : Prop :=
  ∀ (s : HoverPressedAnimation) (op : Op), s.started_at.isSome = true →
    (step s op).started_at = none →
    op = Op.opReset ∨
      ((∃ fd bd n, op = Op.opRedraw fd bd n) ∧
       s.animation_progress = FP.fin 0 ∧
       s.direction = AnimationDirection.backward)

theorem clearedOnlyBy_holds : ClearedOnlyByResetOrFinishedUnwind := by
  intro s op hs hn
  obtain ⟨t, hsa⟩ := Option.isSome_iff_exists.mp hs
  cases op with
  | opReset => exact Or.inl rfl
  | opPress n => simp [step, HoverPressedAnimation.on_press] at hn
  | opReleased n => simp [step, HoverPressedAnimation.on_released] at hn
  | opActivate n => simp [step, HoverPressedAnimation.on_activate] at hn
  | opCursorMoved b n =>
    obtain ⟨u, hu⟩ := on_cursor_keeps_running s b n t hsa
    rw [step] at hn
    rw [hu] at hn
    cases hn
  | opRedraw fd bd n =>
    exact Or.inr ⟨⟨fd, bd, n, rfl⟩,
      on_redraw_clears_only_settled_backward s fd bd n t hsa hn⟩

/-- C7: `started_at` is set to `none` only by `reset` or by a redraw
tick on a state with `animation_progress = 0.0` and direction Backward;
consequently, a machine running Forward whose progress has reached `1.0`
stays running under every further sequence of ticks, and every
subsequent tick returns `true`: the machine never stops at the hovered
extreme on its own. -/
theorem started_at_cleared_only_by_reset_or_finished_unwind
    (s : HoverPressedAnimation) (t : ℕ) (ticks : List (ℕ × ℕ × ℕ))
    (hsa : s.started_at = some t)
    (hdir : s.direction = AnimationDirection.forward)
    (_hpr : s.animation_progress = FP.fin 1) :
    ClearedOnlyByResetOrFinishedUnwind ∧
    (runTicks s ticks).started_at = some t ∧
    (∀ fd bd n, ((runTicks s ticks).on_redraw_request_update fd bd n).2
      = true) := by
  have hk := runTicks_forward_keeps ticks s t hsa hdir
  exact ⟨clearedOnlyBy_holds, hk.1,
    fun fd bd n => on_redraw_snd_of_running _ fd bd n t hk.1⟩

/-- C7 witness: the clearing discipline and the keeps-running behaviour
instantiated on a concrete running Forward state at progress `1.0` with
two further ticks and a third probed tick. -/
theorem started_at_cleared_only_witness :
    ClearedOnlyByResetOrFinishedUnwind ∧
    (runTicks (⟨AnimationDirection.forward, some 0, FP.fin 1, FP.fin 0,
        AnimationEffect.linear⟩ : HoverPressedAnimation)
        [(5, 5, 2), (5, 5, 4)]).started_at = some 0 ∧
    ((runTicks (⟨AnimationDirection.forward, some 0, FP.fin 1, FP.fin 0,
        AnimationEffect.linear⟩ : HoverPressedAnimation)
        [(5, 5, 2), (5, 5, 4)]).on_redraw_request_update 5 5 6).2 = true :=
  ⟨(started_at_cleared_only_by_reset_or_finished_unwind
      (⟨AnimationDirection.forward, some 0, FP.fin 1, FP.fin 0,
        AnimationEffect.linear⟩ : HoverPressedAnimation) 0
      [(5, 5, 2), (5, 5, 4)] rfl rfl rfl).1,
   (started_at_cleared_only_by_reset_or_finished_unwind
      (⟨AnimationDirection.forward, some 0, FP.fin 1, FP.fin 0,
        AnimationEffect.linear⟩ : HoverPressedAnimation) 0
      [(5, 5, 2), (5, 5, 4)] rfl rfl rfl).2.1,
   (started_at_cleared_only_by_reset_or_finished_unwind
      (⟨AnimationDirection.forward, some 0, FP.fin 1, FP.fin 0,
        AnimationEffect.linear⟩ : HoverPressedAnimation) 0
      [(5, 5, 2), (5, 5, 4)] rfl rfl rfl).2.2 5 5 6⟩

/-- C4 counterexample: the ending of the claim fails.  In the concrete
Linear scenario (forward 1000 ms, backward 500 ms; press at 0, tick at
1000 reaching progress `1.0`, release at 1000, tick at 1500 reaching
progress `0.0`), the tick after progress reaches `0.0` (at 1501) clears
`started_at` but returns `needs_redraw = true`, not `false`; only the
tick after that (at 1502) returns `false`. -/
theorem press_release_unwind_counterexample :
    ((((HoverPressedAnimation.default.on_press 0).on_redraw_request_update
        1000 500 1000).1.on_released 1000).on_redraw_request_update
        1000 500 1500).1.animation_progress = FP.fin 0 ∧
    ((((HoverPressedAnimation.default.on_press 0).on_redraw_request_update
        1000 500 1000).1.on_released 1000).on_redraw_request_update
        1000 500 1500).1.is_running = true ∧
    (((((HoverPressedAnimation.default.on_press 0).on_redraw_request_update
        1000 500 1000).1.on_released 1000).on_redraw_request_update
        1000 500 1500).1.on_redraw_request_update 1000 500 1501).2 = true ∧
    (((((HoverPressedAnimation.default.on_press 0).on_redraw_request_update
        1000 500 1000).1.on_released 1000).on_redraw_request_update
        1000 500 1500).1.on_redraw_request_update 1000 500 1501).1.is_running
      = false ∧
    ((((((HoverPressedAnimation.default.on_press 0).on_redraw_request_update
        1000 500 1000).1.on_released 1000).on_redraw_request_update
        1000 500 1500).1.on_redraw_request_update 1000 500 1501).1.on_redraw_request_update
        1000 500 1502).2 = false := by
  with_unfolding_all decide

/-- C4 (amended): from idle with effect Linear or EaseOut and nonzero
durations: `on_press`, a tick once `forward_duration_ms` has elapsed,
`on_released`, then any redraw ticks before `backward_duration_ms` has
elapsed followed by a tick at or past it.  That tick yields
`animation_progress = 0.0` and still returns `true`; the next tick (the
tick after progress reaches 0) stops the run, making
`is_running() = false`, but also returns `needs_redraw = true`; only the
tick after the run has stopped returns `needs_redraw = false`. -/
theorem press_release_unwind_terminates (eff : AnimationEffect)
    (heff : eff = AnimationEffect.linear ∨ eff = AnimationEffect.easeOut)
    (fd bd t0 tp tr n1 n2 n3 : ℕ) (mid : List ℕ)
    (hfd : fd ≠ 0) (hbd : bd ≠ 0)
    (htp : t0 + fd ≤ tp) (_htr : tp ≤ tr)
    (hmid : ∀ m ∈ mid, tr ≤ m ∧ m < tr + bd)
    (hn1 : tr + bd ≤ n1) (_hn2 : n1 < n2) (_hn3 : n2 < n3) :
    (runTicks ((((HoverPressedAnimation.new eff).on_press
          t0).on_redraw_request_update fd bd tp).1.on_released tr)
        (mid.map fun m => (fd, bd, m))).on_redraw_request_update fd bd n1
      |>.1.animation_progress = FP.fin 0 ∧
    ((runTicks ((((HoverPressedAnimation.new eff).on_press
          t0).on_redraw_request_update fd bd tp).1.on_released tr)
        (mid.map fun m => (fd, bd, m))).on_redraw_request_update fd bd n1).2
      = true ∧
    ((runTicks ((((HoverPressedAnimation.new eff).on_press
          t0).on_redraw_request_update fd bd tp).1.on_released tr)
        (mid.map fun m => (fd, bd, m))).on_redraw_request_update fd bd n1).1.is_running
      = true ∧
    (((runTicks ((((HoverPressedAnimation.new eff).on_press
          t0).on_redraw_request_update fd bd tp).1.on_released tr)
        (mid.map fun m => (fd, bd, m))).on_redraw_request_update fd bd
        n1).1.on_redraw_request_update fd bd n2).1.animation_progress = FP.fin 0 ∧
    (((runTicks ((((HoverPressedAnimation.new eff).on_press
          t0).on_redraw_request_update fd bd tp).1.on_released tr)
        (mid.map fun m => (fd, bd, m))).on_redraw_request_update fd bd
        n1).1.on_redraw_request_update fd bd n2).1.is_running = false ∧
    (((runTicks ((((HoverPressedAnimation.new eff).on_press
          t0).on_redraw_request_update fd bd tp).1.on_released tr)
        (mid.map fun m => (fd, bd, m))).on_redraw_request_update fd bd
        n1).1.on_redraw_request_update fd bd n2).2 = true ∧
    ((((runTicks ((((HoverPressedAnimation.new eff).on_press
          t0).on_redraw_request_update fd bd tp).1.on_released tr)
        (mid.map fun m => (fd, bd, m))).on_redraw_request_update fd bd
        n1).1.on_redraw_request_update fd bd
        n2).1.on_redraw_request_update fd bd n3).2 = false := by
  have h2 : (((HoverPressedAnimation.new eff).on_press
      t0).on_redraw_request_update fd bd tp) =
      (⟨AnimationDirection.forward, some t0, FP.fin 1, FP.fin 0, eff⟩, true) :=
    pressRun_tick_reaches_one eff heff fd bd t0 tp hfd htp
  rcases heff with h | h <;> subst h
  · obtain ⟨q2, hq2run, hq2pos, hq2le⟩ :=
      backwardRun_runTicks_mid_linear tr bd fd hfd hbd mid
        (fun m hm => (hmid m hm).2) 1 one_pos le_rfl
    have h3 : ((((HoverPressedAnimation.new AnimationEffect.linear).on_press
        t0).on_redraw_request_update fd bd tp).1.on_released tr) =
        backwardRun tr 1 AnimationEffect.linear := by rw [h2]; rfl
    have h5 := backwardRun_tick_final_linear tr bd fd n1 q2
      (ne_of_gt hq2pos) hfd hbd hn1
    have h6 := backwardRun_tick_settled tr bd fd n2 AnimationEffect.linear hfd
    have h7 := on_redraw_of_idle
      ({ backwardRun tr 0 AnimationEffect.linear with started_at := none })
      fd bd n3 rfl
    rw [h3, hq2run, h5, h6, h7]
    simp [backwardRun, HoverPressedAnimation.is_running]
  · obtain ⟨q2, hq2run, hq2pos, hq2le⟩ :=
      backwardRun_runTicks_mid_easeOut tr bd fd hfd hbd mid
        (fun m hm => (hmid m hm).2) 1 one_pos le_rfl
    have h3 : ((((HoverPressedAnimation.new AnimationEffect.easeOut).on_press
        t0).on_redraw_request_update fd bd tp).1.on_released tr) =
        backwardRun tr 1 AnimationEffect.easeOut := by rw [h2]; rfl
    have h5 := backwardRun_tick_final_easeOut tr bd fd n1 q2
      (ne_of_gt hq2pos) hfd hbd hn1
    have h6 := backwardRun_tick_settled tr bd fd n2 AnimationEffect.easeOut hfd
    have h7 := on_redraw_of_idle
      ({ backwardRun tr 0 AnimationEffect.easeOut with started_at := none })
      fd bd n3 rfl
    rw [h3, hq2run, h5, h6, h7]
    simp [backwardRun, HoverPressedAnimation.is_running]

/-- C4 witness: the amended termination scenario instantiated with the
Linear effect, forward 10 ms, backward 10 ms, press at 0, tick at 10,
release at 10, one intermediate tick at 15, and final ticks at 20, 21,
22. -/
theorem press_release_unwind_terminates_witness :
    (runTicks ((((HoverPressedAnimation.new AnimationEffect.linear).on_press
          0).on_redraw_request_update 10 10 10).1.on_released 10)
        ([15].map fun m => (10, 10, m))).on_redraw_request_update 10 10 20
      |>.1.animation_progress = FP.fin 0 ∧
    (((runTicks ((((HoverPressedAnimation.new AnimationEffect.linear).on_press
          0).on_redraw_request_update 10 10 10).1.on_released 10)
        ([15].map fun m => (10, 10, m))).on_redraw_request_update 10 10
        20).1.on_redraw_request_update 10 10 21).1.is_running = false ∧
    (((runTicks ((((HoverPressedAnimation.new AnimationEffect.linear).on_press
          0).on_redraw_request_update 10 10 10).1.on_released 10)
        ([15].map fun m => (10, 10, m))).on_redraw_request_update 10 10
        20).1.on_redraw_request_update 10 10 21).2 = true ∧
    ((((runTicks ((((HoverPressedAnimation.new AnimationEffect.linear).on_press
          0).on_redraw_request_update 10 10 10).1.on_released 10)
        ([15].map fun m => (10, 10, m))).on_redraw_request_update 10 10
        20).1.on_redraw_request_update 10 10
        21).1.on_redraw_request_update 10 10 22).2 = false := by
  have h := press_release_unwind_terminates AnimationEffect.linear
    (Or.inl rfl) 10 10 0 10 10 20 21 22 [15] (by decide) (by decide)
    (by decide) (by decide) (by decide) (by decide) (by decide) (by decide)
  exact ⟨h.1, h.2.2.2.2.1, h.2.2.2.2.2.1, h.2.2.2.2.2.2⟩

theorem mixChannel_self (x rt : ℚ) (h0 : 0 ≤ x) (h1 : x ≤ 1) :
    FP.clampQ (x * (1 - rt) + x * rt) = x := by
  rw [show x * (1 - rt) + x * rt = x from by ring]
  exact FP.clampQ_of_mem x h0 h1

theorem mixChannel_zero (x y : ℚ) (h0 : 0 ≤ x) (h1 : x ≤ 1) :
    FP.clampQ (x * (1 - 0) + y * 0) = x := by
  rw [show x * (1 - 0) + y * 0 = x from by ring]
  exact FP.clampQ_of_mem x h0 h1

theorem mixChannel_one (x y : ℚ) (h0 : 0 ≤ y) (h1 : y ≤ 1) :
    FP.clampQ (x * (1 - 1) + y * 1) = y := by
  rw [show x * (1 - 1) + y * 1 = y from by ring]
  exact FP.clampQ_of_mem y h0 h1

/-- C10: for the pure `mix` function on colors with channels in `[0, 1]`:
mixing a color with itself gives the color back for every ratio, ratio
`0.0` gives the first color, and ratio `1.0` gives the second color, on
all four channels including alpha. -/
theorem mix_identities (c d : Color) (rt : ℚ)
    (hc : ValidColor c) (hd : ValidColor d) :
    mix c c rt = c ∧ mix c d 0 = c ∧ mix c d 1 = d := by
  obtain ⟨cr, cg, cb, ca⟩ := c
  obtain ⟨dr, dg, db, da⟩ := d
  obtain ⟨hr0, hr1, hg0, hg1, hb0, hb1, ha0, ha1⟩ := hc
  obtain ⟨kr0, kr1, kg0, kg1, kb0, kb1, ka0, ka1⟩ := hd
  refine ⟨?_, ?_, ?_⟩ <;> simp only [mix, Color.mk.injEq]
  · exact ⟨mixChannel_self cr rt hr0 hr1, mixChannel_self cg rt hg0 hg1,
      mixChannel_self cb rt hb0 hb1, mixChannel_self ca rt ha0 ha1⟩
  · exact ⟨mixChannel_zero cr dr hr0 hr1, mixChannel_zero cg dg hg0 hg1,
      mixChannel_zero cb db hb0 hb1, mixChannel_zero ca da ha0 ha1⟩
  · exact ⟨mixChannel_one cr dr kr0 kr1, mixChannel_one cg dg kg0 kg1,
      mixChannel_one cb db kb0 kb1, mixChannel_one ca da ka0 ka1⟩

/-- C10 witness: the three identities evaluated on two concrete valid
colors with the out-of-range ratio `7/3`. -/
theorem mix_identities_witness :
    mix ⟨1/2, 0, 1, 1⟩ ⟨1/2, 0, 1, 1⟩ (7/3) = ⟨1/2, 0, 1, 1⟩ ∧
    mix ⟨1/2, 0, 1, 1⟩ ⟨0, 1, 1/4, 3/4⟩ 0 = ⟨1/2, 0, 1, 1⟩ ∧
    mix ⟨1/2, 0, 1, 1⟩ ⟨0, 1, 1/4, 3/4⟩ 1 = ⟨0, 1, 1/4, 3/4⟩ :=
  mix_identities ⟨1/2, 0, 1, 1⟩ ⟨0, 1, 1/4, 3/4⟩ (7/3)
    (by with_unfolding_all decide) (by with_unfolding_all decide)
